import Mathlib

/-!
# NestStay inventory-ledger verification

Shallow embedding of the date-range room-inventory ledger of
`app/repositories/room_date_inventory_repo.py` and of the `Booking`
model of `app/models/booking.py`.

Modelling conventions:
* a calendar date is a `Nat` (its day ordinal); `d + 1` is the next day,
  matching Python's `current += timedelta(days=1)`;
* room-type ids are `Nat`; room counts (`total_rooms`, `booked_count`,
  the `count`/`num_rooms` arguments) are `Int`, matching Python's
  unbounded signed integers;
* the database table `room_date_inventory` is a `List RoomDateInventory`;
  a SQL `select ... where` is a `List.filter`, `session.add` appends,
  and an in-place mutation of loaded rows is a `List.map` over the rows
  the corresponding `where` clause selects.
-/

namespace NestStay

/-- One row of the `room_date_inventory` table
(`app/models/room_date_inventory.py`): inventory for a room type on a
specific date. -/
structure RoomDateInventory where
  room_type_id : Nat
  date : Nat
  total_rooms : Int
  booked_count : Int
deriving Repr, DecidableEq

/-- The `where` clause shared by all range queries of the repository:
`room_type_id == rt AND date >= s AND date < e`. -/
def inRange (rt s e : Nat) (r : RoomDateInventory) : Bool :=
  r.room_type_id == rt && decide (s ≤ r.date) && decide (r.date < e)

/-- The rows a range query returns (before any ordering). -/
def selectRange (db : List RoomDateInventory) (rt s e : Nat) :
    List RoomDateInventory :=
  db.filter (inRange rt s e)

/-- Whether the table already holds a row for `(rt, d)` — the membership
test against the `existing_dates` set in `ensure_rows_exist`. -/
def hasRow (db : List RoomDateInventory) (rt d : Nat) : Bool :=
  db.any (fun r => r.room_type_id == rt && r.date == d)

/-- The body of the `while current < end_date` loop of
`ensure_rows_exist`, structurally recursive on the remaining number of
iterations `fuel = e - current`: one row per date absent from the
snapshot `db`, with the given `total_rooms` and `booked_count = 0`. -/
def newRowsAux (db : List RoomDateInventory) (rt : Nat) (total : Int) :
    Nat → Nat → List RoomDateInventory
  | 0, _ => []
  | fuel + 1, current =>
    (if hasRow db rt current then [] else [⟨rt, current, total, 0⟩])
      ++ newRowsAux db rt total fuel (current + 1)

/-- The rows the `while current < end_date` loop of `ensure_rows_exist`
inserts over `[current, e)`. -/
def newRows (db : List RoomDateInventory) (rt : Nat) (total : Int)
    (current e : Nat) : List RoomDateInventory :=
  newRowsAux db rt total (e - current) current

/-- `RoomDateInventoryRepository.ensure_rows_exist`: lazy creation of the
missing rows of the half-open range; existing rows untouched. -/
def ensure_rows_exist (db : List RoomDateInventory) (rt s e : Nat)
    (total : Int) : List RoomDateInventory :=
  if s ≥ e then db else db ++ newRows db rt total s e

/-- Ordered insertion by `date` (the effect of the query's
`ORDER BY date`). -/
def insertByDate (r : RoomDateInventory) :
    List RoomDateInventory → List RoomDateInventory
  | [] => [r]
  | x :: xs =>
    if r.date ≤ x.date then r :: x :: xs else x :: insertByDate r xs

/-- Sorting by `date` ascending. -/
def sortByDate : List RoomDateInventory → List RoomDateInventory
  | [] => []
  | x :: xs => insertByDate x (sortByDate xs)

/-- `RoomDateInventoryRepository.get_for_date_range_with_lock`: the rows
of the half-open range, ordered by date (the `FOR UPDATE` lock has no
data effect; it is the serialization point modelled in the workflow
below as atomicity of the whole create-booking step). -/
def get_for_date_range_with_lock (db : List RoomDateInventory)
    (rt s e : Nat) : List RoomDateInventory :=
  if s ≥ e then [] else sortByDate (selectRange db rt s e)

/-- `min(row.total_rooms - row.booked_count for row in rows)` over a
non-empty `rows` (Python's `min` of the generator, folded left). -/
def minAvailable : List RoomDateInventory → Int
  | [] => 0
  | r :: rs =>
    rs.foldl (fun m x => min m (x.total_rooms - x.booked_count))
      (r.total_rooms - r.booked_count)

/-- `RoomDateInventoryRepository.check_availability`: read-only
availability check over the half-open range. -/
def check_availability (db : List RoomDateInventory) (rt s e : Nat)
    (num : Int) : Bool × Int :=
  if s ≥ e then (true, 0)
  else
    let rows := selectRange db rt s e
    if rows.isEmpty then (false, 0)
    else (decide (minAvailable rows ≥ num), minAvailable rows)

/-- `RoomDateInventoryRepository.increment_booked`, as a pure function on
the already-loaded rows: adds `count` to each row's `booked_count`. -/
def increment_booked (rows : List RoomDateInventory) (count : Int) :
    List RoomDateInventory :=
  rows.map (fun r => { r with booked_count := r.booked_count + count })

/-- The effect of `increment_booked` on the table when it is applied, as
in the create-booking flow, to the rows loaded by the range query: every
row the query selects is mutated in place. -/
def apply_increment (db : List RoomDateInventory) (rt s e : Nat)
    (count : Int) : List RoomDateInventory :=
  db.map (fun r =>
    if inRange rt s e r then
      { r with booked_count := r.booked_count + count }
    else r)

/-- `RoomDateInventoryRepository.decrement_booked`: reloads the rows of
the half-open range and sets each to `max(0, booked_count - count)`. -/
def decrement_booked (db : List RoomDateInventory) (rt s e : Nat)
    (count : Int) : List RoomDateInventory :=
  if s ≥ e then db
  else
    db.map (fun r =>
      if inRange rt s e r then
        { r with booked_count := max 0 (r.booked_count - count) }
      else r)

/-- `BookingStatus` (`app/models/booking.py`). -/
inductive BookingStatus where
  | pending
  | confirmed
  | checked_in
  | checked_out
  | cancelled
  | no_show
deriving Repr, DecidableEq

/-- The `Booking` entity (`app/models/booking.py`). Field defaults mirror
the SQLModel `Field(default=...)` declarations: `num_rooms = 1`,
`num_guests = 1`, `status = PENDING`, `deleted_at = NULL`; prices are
`Decimal` in the source, modelled as `Int` cents (their value plays no
role in the claims); `created_at`/`updated_at` come from a
`default_factory` clock, so they are explicit arguments here. -/
structure Booking where
  slug : String
  guest_id : Nat
  room_type_id : Nat
  location_id : Nat
  hotel_id : Nat
  check_in : Nat
  check_out : Nat
  num_rooms : Int := 1
  num_guests : Int := 1
  night_count : Int
  price_per_night : Int
  total_price : Int
  status : BookingStatus := BookingStatus.pending
  special_requests : Option String := none
  cancellation_reason : Option String := none
  cancelled_at : Option Nat := none
  created_at : Nat
  updated_at : Nat
  deleted_at : Option Nat := none
deriving Repr, DecidableEq

/-! ## Booking workflow

The repository under `src/` contains the ledger operations above and
their unit tests, but not the `createBooking`/`cancelBooking`
orchestration itself; the workflow definitions below are therefore
modelled from the spec (sections 4.2 and 5). -/

/-- A booking as the ledger invariant needs it: the room type, the
half-open night range, the room count, and whether it was cancelled. -/
structure BookingRec where
  room_type_id : Nat
  check_in : Nat
  check_out : Nat
  num_rooms : Int
  cancelled : Bool
deriving Repr, DecidableEq

/-- The shared mutable state: the inventory table plus the booking
store. -/
structure LedgerState where
  db : List RoomDateInventory
  bookings : List BookingRec
deriving Repr, DecidableEq

/-- Whether booking `b` covers night `d` of room type `rt` and still
holds inventory (it is not cancelled). -/
def covers (b : BookingRec) (rt d : Nat) : Bool :=
  !b.cancelled && b.room_type_id == rt
    && decide (b.check_in ≤ d) && decide (d < b.check_out)

/-- The number of rooms held on night `d` of room type `rt`: the sum of
`num_rooms` across all non-cancelled bookings covering that night. -/
def nightSum (bs : List BookingRec) (rt d : Nat) : Int :=
  ((bs.filter (fun b => covers b rt d)).map (fun b => b.num_rooms)).sum

/-- Modelled from the spec: the create-booking protocol (spec section
4.2, steps 2–6), absent from `src/`. Within one transaction it calls
`ensure_rows_exist` with the room type's currently configured capacity
`cfg`, locks the night rows, re-checks availability under the lock with
the `check_availability` formula, and either aborts (rolling every
mutation back, so the state is unchanged) or increments the locked rows
and appends a booking. A zero- or negative-night range is rejected
before reaching the ledger (spec section 4.2, edge-case policy). The
row lock serializes concurrent attempts (spec section 5), so a
concurrent history is a sequence of these atomic steps. -/
def createBooking (st : LedgerState) (rt s e : Nat) (num cfg : Int) :
    LedgerState :=
  if s ≥ e then st
  else if (check_availability (ensure_rows_exist st.db rt s e cfg)
      rt s e num).1 then
    { db := apply_increment (ensure_rows_exist st.db rt s e cfg)
        rt s e num
      bookings := st.bookings ++ [⟨rt, s, e, num, false⟩] }
  else st

/-- Modelled from the spec: the cancellation protocol (spec section 4.2),
absent from `src/`. The booking, identified here by its index in the
store, is marked cancelled and its night range released through
`decrement_booked`; a booking already in the terminal `CANCELLED` state
is not cancelled again. -/
def cancelBooking (st : LedgerState) (i : Nat) : LedgerState :=
  match st.bookings.get? i with
  | none => st
  | some b =>
    if b.cancelled then st
    else
      { db := decrement_booked st.db b.room_type_id b.check_in
          b.check_out b.num_rooms
        bookings := st.bookings.set i { b with cancelled := true } }

/-- One client request against the shared store. -/
inductive Event where
  | create (rt s e : Nat) (num cfg : Int)
  | cancel (i : Nat)
deriving Repr, DecidableEq

/-- The atomic effect of one request. -/
def step (st : LedgerState) : Event → LedgerState
  | Event.create rt s e num cfg => createBooking st rt s e num cfg
  | Event.cancel i => cancelBooking st i

/-- A history of serialized requests. -/
def run (st : LedgerState) (evs : List Event) : LedgerState :=
  evs.foldl step st

/-- The empty store. -/
def initState : LedgerState := ⟨[], []⟩

/-- A create event requesting a non-negative number of rooms (the
well-formedness the HTTP layer guarantees for `num_rooms`). -/
def eventOK : Event → Prop
  | Event.create _ _ _ num _ => 0 ≤ num
  | Event.cancel _ => True

instance (ev : Event) : Decidable (eventOK ev) := by
  cases ev <;> simp [eventOK] <;> infer_instance

/-- A sequence of standalone `decrement_booked` calls (the cancellation
release path), each given by `(room_type_id, start_date, end_date,
count)`. -/
def runDecrements (db : List RoomDateInventory)
    (calls : List (Nat × Nat × Nat × Int)) : List RoomDateInventory :=
  calls.foldl
    (fun d c => decrement_booked d c.1 c.2.1 c.2.2.1 c.2.2.2) db

/-- The ledger invariant the workflow maintains: every row's
`booked_count` equals the held-room sum of the booking store for its
night, every night covered by a booking has a materialized row, bookings
hold non-negative room counts, and no row exceeds its capacity. -/
def Inv (st : LedgerState) : Prop :=
  (∀ r ∈ st.db,
    r.booked_count = nightSum st.bookings r.room_type_id r.date) ∧
  (∀ b ∈ st.bookings, ∀ d, b.check_in ≤ d → d < b.check_out →
    hasRow st.db b.room_type_id d = true) ∧
  (∀ b ∈ st.bookings, 0 ≤ b.num_rooms) ∧
  (∀ r ∈ st.db, r.booked_count ≤ r.total_rooms)

/-! ## Basic range lemmas -/

theorem inRange_iff {rt s e : Nat} {r : RoomDateInventory} :
    inRange rt s e r = true ↔
      r.room_type_id = rt ∧ s ≤ r.date ∧ r.date < e := by
  simp [inRange, and_assoc]

theorem inRange_eq_false_of_ge {rt s e : Nat} (h : e ≤ s)
    (r : RoomDateInventory) : inRange rt s e r = false := by
  rw [Bool.eq_false_iff]
  intro hc
  rcases inRange_iff.mp hc with ⟨-, h1, h2⟩
  omega

/-- `decrement_booked` updates exactly the rows the range selects, each
to `max 0 (booked_count - count)`; when the range is empty no row is in
range, so the guard branch agrees with the map. -/
theorem decrement_booked_eq_map (db : List RoomDateInventory)
    (rt s e : Nat) (count : Int) :
    decrement_booked db rt s e count =
      db.map (fun r =>
        if inRange rt s e r then
          { r with booked_count := max 0 (r.booked_count - count) }
        else r) := by
  unfold decrement_booked
  split
  · next h =>
    conv_lhs => rw [(List.map_id db).symm]
    apply List.map_congr_left
    intro r _
    rw [inRange_eq_false_of_ge h]
    simp
  · rfl

/-! ## Sorting lemmas -/

theorem insertByDate_perm (r : RoomDateInventory)
    (l : List RoomDateInventory) : (insertByDate r l).Perm (r :: l) := by
  induction l with
  | nil => simp [insertByDate]
  | cons x xs ih =>
    unfold insertByDate
    split
    · exact List.Perm.refl _
    · exact (List.Perm.cons x ih).trans (List.Perm.swap r x xs)

theorem sortByDate_perm (l : List RoomDateInventory) :
    (sortByDate l).Perm l := by
  induction l with
  | nil => simp [sortByDate]
  | cons x xs ih =>
    exact (insertByDate_perm x (sortByDate xs)).trans (ih.cons x)

theorem mem_insertByDate {r x : RoomDateInventory}
    {l : List RoomDateInventory} (hx : x ∈ insertByDate r l) :
    x = r ∨ x ∈ l := by
  have := (insertByDate_perm r l).mem_iff.mp hx
  simpa using this

theorem insertByDate_sorted (r : RoomDateInventory)
    (l : List RoomDateInventory)
    (hl : l.Pairwise (fun a b => a.date ≤ b.date)) :
    (insertByDate r l).Pairwise (fun a b => a.date ≤ b.date) := by
  induction l with
  | nil => simp [insertByDate]
  | cons x xs ih =>
    unfold insertByDate
    rcases List.pairwise_cons.mp hl with ⟨hx, hxs⟩
    split
    · next hle =>
      refine List.pairwise_cons.mpr ⟨?_, hl⟩
      intro a ha
      rcases List.mem_cons.mp ha with rfl | ha
      · exact hle
      · exact le_trans hle (hx a ha)
    · next hgt =>
      refine List.pairwise_cons.mpr ⟨?_, ih hxs⟩
      intro a ha
      rcases mem_insertByDate ha with rfl | ha
      · omega
      · exact hx a ha

theorem sortByDate_sorted (l : List RoomDateInventory) :
    (sortByDate l).Pairwise (fun a b => a.date ≤ b.date) := by
  induction l with
  | nil => simp [sortByDate]
  | cons x xs ih => exact insertByDate_sorted x (sortByDate xs) ih

/-! ## Minimum-availability lemmas -/

theorem foldl_min_le_init (f : RoomDateInventory → Int)
    (l : List RoomDateInventory) (a : Int) :
    l.foldl (fun m x => min m (f x)) a ≤ a := by
  induction l generalizing a with
  | nil => simp
  | cons x xs ih => exact le_trans (ih (min a (f x))) (min_le_left _ _)

theorem foldl_min_le_mem (f : RoomDateInventory → Int)
    (l : List RoomDateInventory) (a : Int) {x : RoomDateInventory}
    (hx : x ∈ l) : l.foldl (fun m y => min m (f y)) a ≤ f x := by
  induction l generalizing a with
  | nil => cases hx
  | cons y ys ih =>
    rcases List.mem_cons.mp hx with rfl | hx
    · exact le_trans (foldl_min_le_init f ys _) (min_le_right _ _)
    · exact ih _ hx

theorem foldl_min_attained (f : RoomDateInventory → Int)
    (l : List RoomDateInventory) (a : Int) :
    l.foldl (fun m x => min m (f x)) a = a ∨
      ∃ x ∈ l, l.foldl (fun m y => min m (f y)) a = f x := by
  induction l generalizing a with
  | nil => left; rfl
  | cons y ys ih =>
    rcases ih (min a (f y)) with h | ⟨x, hx, h⟩
    · simp only [List.foldl_cons] at *
      rcases le_total a (f y) with hle | hle
      · left; rw [h, min_eq_left hle]
      · right; exact ⟨y, List.mem_cons_self y ys, by rw [h, min_eq_right hle]⟩
    · right; exact ⟨x, List.mem_cons_of_mem y hx, h⟩

theorem minAvailable_le {rows : List RoomDateInventory}
    (hne : rows ≠ []) {x : RoomDateInventory} (hx : x ∈ rows) :
    minAvailable rows ≤ x.total_rooms - x.booked_count := by
  match rows with
  | [] => cases hne rfl
  | r :: rs =>
    rcases List.mem_cons.mp hx with rfl | hx
    · exact foldl_min_le_init _ rs _
    · exact foldl_min_le_mem _ rs _ hx

theorem minAvailable_attained {rows : List RoomDateInventory}
    (hne : rows ≠ []) :
    ∃ x ∈ rows, minAvailable rows = x.total_rooms - x.booked_count := by
  match rows with
  | [] => cases hne rfl
  | r :: rs =>
    rcases foldl_min_attained
        (fun x => x.total_rooms - x.booked_count) rs
        (r.total_rooms - r.booked_count) with h | ⟨x, hx, h⟩
    · exact ⟨r, List.mem_cons_self r rs, h⟩
    · exact ⟨x, List.mem_cons_of_mem r hx, h⟩

/-! ## Row-materialization lemmas -/

theorem hasRow_iff {db : List RoomDateInventory} {rt d : Nat} :
    hasRow db rt d = true ↔
      ∃ r ∈ db, r.room_type_id = rt ∧ r.date = d := by
  simp [hasRow, List.any_eq_true]

theorem hasRow_append (l1 l2 : List RoomDateInventory) (rt d : Nat) :
    hasRow (l1 ++ l2) rt d = (hasRow l1 rt d || hasRow l2 rt d) := by
  simp [hasRow, List.any_append]

theorem hasRow_cons (r0 : RoomDateInventory)
    (db : List RoomDateInventory) (rt d : Nat) :
    hasRow (r0 :: db) rt d =
      ((r0.room_type_id == rt && r0.date == d) || hasRow db rt d) := by
  simp [hasRow, List.any_cons]

theorem hasRow_map_preserve (g : RoomDateInventory → RoomDateInventory)
    (hg : ∀ r, (g r).room_type_id = r.room_type_id ∧ (g r).date = r.date)
    (db : List RoomDateInventory) (rt d : Nat) :
    hasRow (db.map g) rt d = hasRow db rt d := by
  induction db with
  | nil => rfl
  | cons r rs ih =>
    rw [List.map_cons, hasRow_cons, hasRow_cons, ih, (hg r).1, (hg r).2]

theorem newRowsAux_sound (db : List RoomDateInventory) (rt : Nat)
    (total : Int) :
    ∀ (fuel cur : Nat), ∀ r ∈ newRowsAux db rt total fuel cur,
      r.room_type_id = rt ∧ cur ≤ r.date ∧ r.date < cur + fuel ∧
        r.total_rooms = total ∧ r.booked_count = 0 ∧
        hasRow db rt r.date = false := by
  intro fuel
  induction fuel with
  | zero => intro cur r hr; cases hr
  | succ n ih =>
    intro cur r hr
    rw [newRowsAux] at hr
    rcases List.mem_append.mp hr with h1 | h2
    · by_cases hh : hasRow db rt cur
      · rw [if_pos hh] at h1; cases h1
      · rw [if_neg hh] at h1
        rcases List.mem_singleton.mp h1 with rfl
        exact ⟨rfl, le_refl _, by dsimp only; omega, rfl, rfl,
          Bool.eq_false_iff.mpr hh⟩
    · have h := ih (cur + 1) r h2
      exact ⟨h.1, by omega, by omega, h.2.2.2⟩

theorem newRows_sound (db : List RoomDateInventory) (rt : Nat)
    (total : Int) :
    ∀ cur e : Nat, ∀ r ∈ newRows db rt total cur e,
      r.room_type_id = rt ∧ cur ≤ r.date ∧ r.date < e ∧
        r.total_rooms = total ∧ r.booked_count = 0 ∧
        hasRow db rt r.date = false := by
  intro cur e r hr
  have h := newRowsAux_sound db rt total (e - cur) cur r hr
  exact ⟨h.1, h.2.1, by omega, h.2.2.2⟩

theorem newRowsAux_covers (db : List RoomDateInventory) (rt : Nat)
    (total : Int) :
    ∀ (fuel cur d : Nat), cur ≤ d → d < cur + fuel →
      hasRow db rt d = false →
      ∃ r ∈ newRowsAux db rt total fuel cur, r.date = d := by
  intro fuel
  induction fuel with
  | zero => intro cur d h1 h2 _; omega
  | succ n ih =>
    intro cur d h1 h2 h3
    rw [newRowsAux]
    by_cases hd : cur = d
    · subst hd
      rw [h3]
      exact ⟨⟨rt, cur, total, 0⟩,
        List.mem_append.mpr (Or.inl (by simp)), rfl⟩
    · have ⟨r, hr, hrd⟩ := ih (cur + 1) d (by omega) (by omega) h3
      exact ⟨r, List.mem_append.mpr (Or.inr hr), hrd⟩

theorem newRows_covers (db : List RoomDateInventory) (rt : Nat)
    (total : Int) :
    ∀ cur e d : Nat, cur ≤ d → d < e → hasRow db rt d = false →
      ∃ r ∈ newRows db rt total cur e, r.date = d := by
  intro cur e d h1 h2 h3
  exact newRowsAux_covers db rt total (e - cur) cur d h1 (by omega) h3

theorem newRowsAux_congr (db1 db2 : List RoomDateInventory) (rt : Nat)
    (total : Int) :
    ∀ (fuel cur : Nat),
      (∀ d, cur ≤ d → d < cur + fuel →
        hasRow db1 rt d = hasRow db2 rt d) →
      newRowsAux db1 rt total fuel cur =
        newRowsAux db2 rt total fuel cur := by
  intro fuel
  induction fuel with
  | zero => intro cur _; rfl
  | succ n ih =>
    intro cur h
    rw [newRowsAux, newRowsAux, h cur (le_refl _) (by omega),
      ih (cur + 1) (fun d hd1 hd2 => h d (by omega) (by omega))]

theorem newRows_congr (db1 db2 : List RoomDateInventory) (rt : Nat)
    (total : Int) :
    ∀ cur e : Nat,
      (∀ d, cur ≤ d → d < e → hasRow db1 rt d = hasRow db2 rt d) →
      newRows db1 rt total cur e = newRows db2 rt total cur e := by
  intro cur e h
  exact newRowsAux_congr db1 db2 rt total (e - cur) cur
    (fun d hd1 hd2 => h d hd1 (by omega))

theorem newRowsAux_nil_of_present (db : List RoomDateInventory)
    (rt : Nat) (total : Int) :
    ∀ (fuel cur : Nat),
      (∀ d, cur ≤ d → d < cur + fuel → hasRow db rt d = true) →
      newRowsAux db rt total fuel cur = [] := by
  intro fuel
  induction fuel with
  | zero => intro cur _; rfl
  | succ n ih =>
    intro cur h
    rw [newRowsAux, h cur (le_refl _) (by omega),
      ih (cur + 1) (fun d hd1 hd2 => h d (by omega) (by omega))]
    rfl

theorem newRows_nil_of_present (db : List RoomDateInventory) (rt : Nat)
    (total : Int) :
    ∀ cur e : Nat,
      (∀ d, cur ≤ d → d < e → hasRow db rt d = true) →
      newRows db rt total cur e = [] := by
  intro cur e h
  exact newRowsAux_nil_of_present db rt total (e - cur) cur
    (fun d hd1 hd2 => h d hd1 (by omega))

theorem ensure_hasRow (db : List RoomDateInventory) (rt s e : Nat)
    (total : Int) (d : Nat) (h1 : s ≤ d) (h2 : d < e) :
    hasRow (ensure_rows_exist db rt s e total) rt d = true := by
  rw [ensure_rows_exist, if_neg (by omega), hasRow_append]
  by_cases hd : hasRow db rt d
  · rw [hd]; rfl
  · have hd' : hasRow db rt d = false := Bool.eq_false_iff.mpr hd
    have ⟨r, hr, hrd⟩ := newRows_covers db rt total s e d h1 h2 hd'
    have hrt := (newRows_sound db rt total s e r hr).1
    rw [Bool.or_eq_true]
    exact Or.inr (hasRow_iff.mpr ⟨r, hr, hrt, hrd⟩)

theorem ensure_idem (db : List RoomDateInventory) (rt s e : Nat)
    (total : Int) :
    ensure_rows_exist (ensure_rows_exist db rt s e total) rt s e total =
      ensure_rows_exist db rt s e total := by
  by_cases hse : s ≥ e
  · rw [ensure_rows_exist, if_pos hse]
  · conv_lhs => rw [ensure_rows_exist, if_neg hse]
    rw [newRows_nil_of_present _ rt total s e
      (fun d hd1 hd2 => ensure_hasRow db rt s e total d hd1 hd2)]
    rw [List.append_nil]

/-! ## Night-sum lemmas -/

theorem covers_iff {b : BookingRec} {rt d : Nat} :
    covers b rt d = true ↔
      b.cancelled = false ∧ b.room_type_id = rt ∧
        b.check_in ≤ d ∧ d < b.check_out := by
  simp [covers, and_assoc, Bool.not_eq_true']

theorem covers_mk_eq_inRange (rt s e : Nat) (num : Int)
    (r : RoomDateInventory) :
    covers ⟨rt, s, e, num, false⟩ r.room_type_id r.date =
      inRange rt s e r := by
  rw [Bool.eq_iff_iff, covers_iff, inRange_iff]
  constructor
  · rintro ⟨-, h1, h2, h3⟩
    exact ⟨h1.symm, h2, h3⟩
  · rintro ⟨h1, h2, h3⟩
    exact ⟨rfl, h1.symm, h2, h3⟩

theorem covers_eq_inRange {b : BookingRec} (hbc : b.cancelled = false)
    (r : RoomDateInventory) :
    covers b r.room_type_id r.date =
      inRange b.room_type_id b.check_in b.check_out r := by
  rw [Bool.eq_iff_iff, covers_iff, inRange_iff]
  constructor
  · rintro ⟨-, h1, h2, h3⟩
    exact ⟨h1.symm, h2, h3⟩
  · rintro ⟨h1, h2, h3⟩
    exact ⟨hbc, h1.symm, h2, h3⟩

theorem nightSum_nil (rt d : Nat) : nightSum [] rt d = 0 := rfl

theorem nightSum_cons (b : BookingRec) (bs : List BookingRec)
    (rt d : Nat) :
    nightSum (b :: bs) rt d =
      (if covers b rt d then b.num_rooms else 0) + nightSum bs rt d := by
  rw [nightSum, nightSum, List.filter_cons]
  by_cases h : covers b rt d
  · rw [if_pos h, if_pos h, List.map_cons, List.sum_cons]
  · rw [if_neg h, if_neg h, zero_add]

theorem nightSum_append (bs1 bs2 : List BookingRec) (rt d : Nat) :
    nightSum (bs1 ++ bs2) rt d = nightSum bs1 rt d + nightSum bs2 rt d := by
  induction bs1 with
  | nil => rw [List.nil_append, nightSum_nil, zero_add]
  | cons b bs ih =>
    rw [List.cons_append, nightSum_cons, nightSum_cons, ih, add_assoc]

theorem nightSum_single (b : BookingRec) (rt d : Nat) :
    nightSum [b] rt d = if covers b rt d then b.num_rooms else 0 := by
  rw [nightSum_cons, nightSum_nil, add_zero]

theorem nightSum_eq_zero {bs : List BookingRec} {rt d : Nat}
    (h : ∀ b ∈ bs, covers b rt d = false) : nightSum bs rt d = 0 := by
  induction bs with
  | nil => rfl
  | cons b bs ih =>
    rw [nightSum_cons, h b (List.mem_cons_self b bs),
      ih (fun x hx => h x (List.mem_cons_of_mem b hx))]
    simp

theorem nightSum_nonneg {bs : List BookingRec} {rt d : Nat}
    (h : ∀ b ∈ bs, 0 ≤ b.num_rooms) : 0 ≤ nightSum bs rt d := by
  induction bs with
  | nil => exact le_refl 0
  | cons b bs ih =>
    rw [nightSum_cons]
    have hb := h b (List.mem_cons_self b bs)
    have hrest := ih (fun x hx => h x (List.mem_cons_of_mem b hx))
    by_cases hc : covers b rt d
    · rw [if_pos hc]; omega
    · rw [if_neg hc]; omega

theorem single_le_nightSum {bs : List BookingRec} {rt d : Nat}
    {b : BookingRec} (hb : b ∈ bs) (hc : covers b rt d = true)
    (h : ∀ x ∈ bs, 0 ≤ x.num_rooms) : b.num_rooms ≤ nightSum bs rt d := by
  induction bs with
  | nil => cases hb
  | cons y ys ih =>
    rw [nightSum_cons]
    have hrest : 0 ≤ nightSum ys rt d :=
      nightSum_nonneg (fun x hx => h x (List.mem_cons_of_mem y hx))
    rcases List.mem_cons.mp hb with rfl | hb
    · rw [if_pos hc]; omega
    · have := ih hb (fun x hx => h x (List.mem_cons_of_mem y hx))
      by_cases hy : covers y rt d
      · rw [if_pos hy]
        have := h y (List.mem_cons_self y ys)
        omega
      · rw [if_neg hy]; omega

theorem covers_cancelled (b : BookingRec) (rt d : Nat) :
    covers { b with cancelled := true } rt d = false := by
  simp [covers]

theorem nightSum_set_cancelled {rt d : Nat} :
    ∀ (bs : List BookingRec) (i : Nat) (b : BookingRec),
      bs.get? i = some b →
      nightSum (bs.set i { b with cancelled := true }) rt d =
        nightSum bs rt d - (if covers b rt d then b.num_rooms else 0) := by
  intro bs
  induction bs with
  | nil => intro i b h; cases h
  | cons y ys ih =>
    intro i b h
    cases i with
    | zero =>
      rw [List.get?] at h
      injection h with h
      subst h
      rw [List.set_cons_zero, nightSum_cons, nightSum_cons,
        covers_cancelled]
      simp
    | succ n =>
      rw [List.get?] at h
      rw [List.set_cons_succ, nightSum_cons, nightSum_cons, ih n b h]
      omega

/-! ## Availability and increment lemmas -/

theorem selectRange_mem {db : List RoomDateInventory} {rt s e : Nat}
    {r : RoomDateInventory} :
    r ∈ selectRange db rt s e ↔ r ∈ db ∧ inRange rt s e r = true := by
  simp [selectRange, List.mem_filter]

theorem check_fst_iff (db : List RoomDateInventory) (rt s e : Nat)
    (num : Int) (hse : ¬s ≥ e) :
    (check_availability db rt s e num).1 = true ↔
      selectRange db rt s e ≠ [] ∧
        num ≤ minAvailable (selectRange db rt s e) := by
  simp only [check_availability]
  rw [if_neg hse]
  by_cases h : (selectRange db rt s e).isEmpty
  · rw [if_pos h]
    have : selectRange db rt s e = [] := by
      simpa [List.isEmpty_iff] using h
    simp [this]
  · rw [if_neg h]
    have : selectRange db rt s e ≠ [] := by
      simpa [List.isEmpty_iff] using h
    simp [this, ge_iff_le]

theorem hasRow_apply_increment (db : List RoomDateInventory)
    (rt s e : Nat) (count : Int) (rt' d : Nat) :
    hasRow (apply_increment db rt s e count) rt' d = hasRow db rt' d := by
  apply hasRow_map_preserve
  intro r
  by_cases h : inRange rt s e r
  · rw [if_pos h]; exact ⟨rfl, rfl⟩
  · rw [if_neg h]; exact ⟨rfl, rfl⟩

theorem hasRow_decrement_booked (db : List RoomDateInventory)
    (rt s e : Nat) (count : Int) (rt' d : Nat) :
    hasRow (decrement_booked db rt s e count) rt' d = hasRow db rt' d := by
  rw [decrement_booked_eq_map]
  apply hasRow_map_preserve
  intro r
  by_cases h : inRange rt s e r
  · rw [if_pos h]; exact ⟨rfl, rfl⟩
  · rw [if_neg h]; exact ⟨rfl, rfl⟩

/-! ## Invariant preservation -/

theorem inv_init : Inv initState := by
  refine ⟨?_, ?_, ?_, ?_⟩ <;> intro x hx <;> cases hx

theorem inv_create {st : LedgerState} {rt s e : Nat} {num cfg : Int}
    (hInv : Inv st) (hnum : 0 ≤ num) :
    Inv (createBooking st rt s e num cfg) := by
  obtain ⟨h1, h2, h3, h4⟩ := hInv
  rw [createBooking]
  by_cases hse : s ≥ e
  · rw [if_pos hse]; exact ⟨h1, h2, h3, h4⟩
  rw [if_neg hse]
  by_cases hchk :
      (check_availability (ensure_rows_exist st.db rt s e cfg)
        rt s e num).1 = true
  case neg => rw [if_neg hchk]; exact ⟨h1, h2, h3, h4⟩
  rw [if_pos hchk]
  obtain ⟨hne, hmin⟩ := (check_fst_iff _ rt s e num hse).mp hchk
  have hdb1eq : ensure_rows_exist st.db rt s e cfg =
      st.db ++ newRows st.db rt cfg s e := by
    rw [ensure_rows_exist, if_neg hse]
  have hbound : ∀ r ∈ ensure_rows_exist st.db rt s e cfg,
      inRange rt s e r = true →
      num ≤ r.total_rooms - r.booked_count := by
    intro r hr hir
    exact le_trans hmin (minAvailable_le hne (selectRange_mem.mpr ⟨hr, hir⟩))
  have h1' : ∀ r ∈ ensure_rows_exist st.db rt s e cfg,
      r.booked_count = nightSum st.bookings r.room_type_id r.date := by
    intro r hr
    rw [hdb1eq] at hr
    rcases List.mem_append.mp hr with h | h
    · exact h1 r h
    · obtain ⟨hrt, hs, he, htot, hbk, hnorow⟩ :=
        newRows_sound st.db rt cfg s e r h
      rw [hbk]
      symm
      apply nightSum_eq_zero
      intro b hb
      rw [Bool.eq_false_iff]
      intro hcov
      obtain ⟨hbc, hbrt, hbs, hbe⟩ := covers_iff.mp hcov
      have hrow := h2 b hb r.date hbs hbe
      rw [hbrt, hrt, hnorow] at hrow
      cases hrow
  refine ⟨?_, ?_, ?_, ?_⟩
  · -- booked_count tracks the night sum
    intro r' hr'
    rcases List.mem_map.mp hr' with ⟨r, hr, rfl⟩
    rw [nightSum_append, nightSum_single]
    by_cases hir : inRange rt s e r = true
    · rw [if_pos hir]
      dsimp only
      rw [covers_mk_eq_inRange, hir, if_pos rfl, h1' r hr]
    · rw [if_neg hir]
      rw [covers_mk_eq_inRange]
      rw [Bool.eq_false_iff.mpr hir, if_neg (by simp), add_zero]
      exact h1' r hr
  · -- covered nights have rows
    intro b hb d hd1 hd2
    rw [hasRow_apply_increment]
    rcases List.mem_append.mp hb with hb | hb
    · have := h2 b hb d hd1 hd2
      rw [hdb1eq, hasRow_append, this, Bool.true_or]
    · rcases List.mem_singleton.mp hb with rfl
      exact ensure_hasRow st.db rt s e cfg d hd1 hd2
  · -- non-negative room counts
    intro b hb
    rcases List.mem_append.mp hb with hb | hb
    · exact h3 b hb
    · rcases List.mem_singleton.mp hb with rfl
      exact hnum
  · -- capacity bound
    intro r' hr'
    rcases List.mem_map.mp hr' with ⟨r, hr, rfl⟩
    by_cases hir : inRange rt s e r = true
    · rw [if_pos hir]
      dsimp only
      have := hbound r hr hir
      omega
    · rw [if_neg hir]
      rw [hdb1eq] at hr
      rcases List.mem_append.mp hr with h | h
      · exact h4 r h
      · obtain ⟨hrt, hs, he, -, -, -⟩ := newRows_sound st.db rt cfg s e r h
        exact absurd (inRange_iff.mpr ⟨hrt, hs, he⟩) hir

theorem inv_cancel {st : LedgerState} {i : Nat} (hInv : Inv st) :
    Inv (cancelBooking st i) := by
  obtain ⟨h1, h2, h3, h4⟩ := hInv
  unfold cancelBooking
  cases hget : st.bookings.get? i with
  | none => exact ⟨h1, h2, h3, h4⟩
  | some b =>
    dsimp only
    by_cases hbc : b.cancelled = true
    · rw [if_pos hbc]; exact ⟨h1, h2, h3, h4⟩
    rw [if_neg hbc]
    have hbcf : b.cancelled = false := Bool.eq_false_iff.mpr hbc
    have hbmem : b ∈ st.bookings := List.get?_mem hget
    have hbnum : 0 ≤ b.num_rooms := h3 b hbmem
    refine ⟨?_, ?_, ?_, ?_⟩
    · -- booked_count tracks the night sum
      intro r' hr'
      rw [decrement_booked_eq_map] at hr'
      rcases List.mem_map.mp hr' with ⟨r, hr, rfl⟩
      by_cases hir :
          inRange b.room_type_id b.check_in b.check_out r = true
      · rw [if_pos hir]
        dsimp only
        rw [nightSum_set_cancelled st.bookings i b hget]
        have hcov : covers b r.room_type_id r.date = true := by
          rw [covers_eq_inRange hbcf, hir]
        rw [hcov, if_pos rfl]
        have hble := single_le_nightSum hbmem hcov h3
        rw [← h1 r hr] at hble ⊢
        omega
      · rw [if_neg hir]
        rw [nightSum_set_cancelled st.bookings i b hget]
        have hcov : covers b r.room_type_id r.date = false := by
          rw [covers_eq_inRange hbcf, Bool.eq_false_iff.mpr hir]
        rw [hcov, if_neg (by simp), sub_zero]
        exact h1 r hr
    · -- covered nights have rows
      intro b' hb' d hd1 hd2
      rw [hasRow_decrement_booked]
      rcases List.mem_or_eq_of_mem_set hb' with hb' | rfl
      · exact h2 b' hb' d hd1 hd2
      · exact h2 b hbmem d hd1 hd2
    · -- non-negative room counts
      intro b' hb'
      rcases List.mem_or_eq_of_mem_set hb' with hb' | rfl
      · exact h3 b' hb'
      · exact hbnum
    · -- capacity bound
      intro r' hr'
      rw [decrement_booked_eq_map] at hr'
      rcases List.mem_map.mp hr' with ⟨r, hr, rfl⟩
      by_cases hir :
          inRange b.room_type_id b.check_in b.check_out r = true
      · rw [if_pos hir]
        dsimp only
        have hcov : covers b r.room_type_id r.date = true := by
          rw [covers_eq_inRange hbcf, hir]
        have hble := single_le_nightSum hbmem hcov h3
        rw [← h1 r hr] at hble
        have := h4 r hr
        omega
      · rw [if_neg hir]
        exact h4 r hr

theorem inv_step {st : LedgerState} {ev : Event} (hInv : Inv st)
    (hok : eventOK ev) : Inv (step st ev) := by
  cases ev with
  | create rt s e num cfg => exact inv_create hInv hok
  | cancel i => exact inv_cancel hInv

theorem inv_run {st : LedgerState} (hInv : Inv st) :
    ∀ evs : List Event, (∀ ev ∈ evs, eventOK ev) → Inv (run st evs) := by
  intro evs
  induction evs generalizing st with
  | nil => intro _; exact hInv
  | cons ev evs ih =>
    intro hok
    rw [run, List.foldl_cons]
    exact ih (inv_step hInv (hok ev (List.mem_cons_self ev evs)))
      (fun x hx => hok x (List.mem_cons_of_mem ev hx))

/-! ## Non-negativity of booked counts under decrements -/

theorem decrement_nonneg {db : List RoomDateInventory} {rt s e : Nat}
    {count : Int} (h : ∀ r ∈ db, 0 ≤ r.booked_count) :
    ∀ r ∈ decrement_booked db rt s e count, 0 ≤ r.booked_count := by
  rw [decrement_booked_eq_map]
  intro r' hr'
  rcases List.mem_map.mp hr' with ⟨r, hr, rfl⟩
  by_cases hir : inRange rt s e r = true
  · rw [if_pos hir]
    exact le_max_left 0 _
  · rw [if_neg hir]
    exact h r hr

theorem runDecrements_nonneg {db : List RoomDateInventory}
    (calls : List (Nat × Nat × Nat × Int))
    (h : ∀ r ∈ db, 0 ≤ r.booked_count) :
    ∀ r ∈ runDecrements db calls, 0 ≤ r.booked_count := by
  induction calls generalizing db with
  | nil => exact h
  | cons c cs ih =>
    rw [runDecrements, List.foldl_cons]
    exact ih (decrement_nonneg h)

/-! ## Rows outside the range are invisible to the range operations -/

theorem inRange_eq_false_of_date_eq_end {rt s e : Nat}
    {r0 : RoomDateInventory} (h : r0.date = e) :
    inRange rt s e r0 = false := by
  rw [Bool.eq_false_iff]
  intro hc
  rcases inRange_iff.mp hc with ⟨-, -, h2⟩
  omega

theorem selectRange_cons_out {r0 : RoomDateInventory}
    {db : List RoomDateInventory} {rt s e : Nat}
    (h : inRange rt s e r0 = false) :
    selectRange (r0 :: db) rt s e = selectRange db rt s e := by
  simp [selectRange, List.filter_cons, h]

theorem check_availability_congr {db1 db2 : List RoomDateInventory}
    {rt s e : Nat} (num : Int)
    (h : selectRange db1 rt s e = selectRange db2 rt s e) :
    check_availability db1 rt s e num =
      check_availability db2 rt s e num := by
  simp only [check_availability]
  rw [h]

/-! ## Claims -/

/-- C1: for every sequence of serialized `createBooking`/`cancelBooking`
requests against the shared ledger (each atomic under the range lock),
with non-negative requested room counts, the sum of `num_rooms` across
all non-cancelled bookings covering any single night never exceeds that
night's `total_rooms`. -/
theorem no_oversell_invariant (evs : List Event)
    (hok : ∀ ev ∈ evs, eventOK ev) :
    ∀ r ∈ (run initState evs).db,
      nightSum (run initState evs).bookings r.room_type_id r.date ≤
        r.total_rooms := by
  obtain ⟨h1, -, -, h4⟩ := inv_run inv_init evs hok
  intro r hr
  rw [← h1 r hr]
  exact h4 r hr

/-- Witness for C1: after the concrete overlapping history — book 7,
cancel it, book 10 — the night-101 row of room type 1 (a row of the
resulting table, holding `booked_count = 10`, `total_rooms = 10`)
satisfies the no-oversell bound. -/
theorem no_oversell_invariant_witness :
    nightSum (run initState [Event.create 1 101 103 7 10,
        Event.cancel 0, Event.create 1 101 103 10 10]).bookings
      1 101 ≤ 10 :=
  no_oversell_invariant
    [Event.create 1 101 103 7 10, Event.cancel 0,
      Event.create 1 101 103 10 10] (by decide)
    ⟨1, 101, 10, 10⟩ (by decide)

/-- C2: over a non-empty range with at least one inventory row,
`check_availability` returns `(min_available ≥ num_rooms,
min_available)` where `min_available` is the minimum of
`total_rooms - booked_count` over the rows of the room type in range:
it is a lower bound on every covered night and is attained on some
covered night (the worst night, not an average or a sum). -/
theorem check_availability_worst_night (db : List RoomDateInventory)
    (rt s e : Nat) (num : Int) (hse : s < e)
    (hne : selectRange db rt s e ≠ []) :
    check_availability db rt s e num =
      (decide (minAvailable (selectRange db rt s e) ≥ num),
        minAvailable (selectRange db rt s e)) ∧
    (∀ r ∈ selectRange db rt s e,
      minAvailable (selectRange db rt s e) ≤
        r.total_rooms - r.booked_count) ∧
    (∃ r ∈ selectRange db rt s e,
      minAvailable (selectRange db rt s e) =
        r.total_rooms - r.booked_count) := by
  refine ⟨?_, fun r hr => minAvailable_le hne hr,
    minAvailable_attained hne⟩
  simp only [check_availability]
  rw [if_neg (by omega), if_neg (by simp [List.isEmpty_iff, hne])]

/-- Witness for C2 at a concrete one-row range. -/
theorem check_availability_worst_night_witness :
    (check_availability [⟨1, 5, 10, 3⟩] 1 5 6 2 =
      (decide (minAvailable (selectRange [⟨1, 5, 10, 3⟩] 1 5 6) ≥ 2),
        minAvailable (selectRange [⟨1, 5, 10, 3⟩] 1 5 6))) ∧
    (∀ r ∈ selectRange [⟨1, 5, 10, 3⟩] 1 5 6,
      minAvailable (selectRange [⟨1, 5, 10, 3⟩] 1 5 6) ≤
        r.total_rooms - r.booked_count) ∧
    (∃ r ∈ selectRange [⟨1, 5, 10, 3⟩] 1 5 6,
      minAvailable (selectRange [⟨1, 5, 10, 3⟩] 1 5 6) =
        r.total_rooms - r.booked_count) :=
  check_availability_worst_night [⟨1, 5, 10, 3⟩] 1 5 6 2 (by omega)
    (by decide)

/-- C3: `decrement_booked` sets each row the range selects to
`max 0 (booked_count - count)` and leaves every other row unchanged;
consequently any sequence of `decrement_booked` calls keeps every
`booked_count` non-negative. -/
theorem decrement_booked_floor_at_zero (db : List RoomDateInventory)
    (rt s e : Nat) (count : Int)
    (calls : List (Nat × Nat × Nat × Int)) :
    decrement_booked db rt s e count =
      db.map (fun r =>
        if inRange rt s e r then
          { r with booked_count := max 0 (r.booked_count - count) }
        else r) ∧
    ((∀ r ∈ db, 0 ≤ r.booked_count) →
      ∀ r ∈ runDecrements db calls, 0 ≤ r.booked_count) :=
  ⟨decrement_booked_eq_map db rt s e count,
    fun h => runDecrements_nonneg calls h⟩

/-- Witness for C3: two decrements totalling 16 against 3 booked rooms
never drive the count negative. -/
theorem decrement_booked_floor_at_zero_witness :
    decrement_booked [⟨1, 5, 10, 3⟩] 1 5 6 7 =
      [⟨1, 5, 10, 3⟩].map (fun r =>
        if inRange 1 5 6 r then
          { r with booked_count := max 0 (r.booked_count - 7) }
        else r) ∧
    (∀ r ∈ runDecrements [⟨1, 5, 10, 3⟩] [(1, 5, 6, 7), (1, 5, 6, 9)],
      0 ≤ r.booked_count) :=
  ⟨(decrement_booked_floor_at_zero [⟨1, 5, 10, 3⟩] 1 5 6 7
      [(1, 5, 6, 7), (1, 5, 6, 9)]).1,
    (decrement_booked_floor_at_zero [⟨1, 5, 10, 3⟩] 1 5 6 7
      [(1, 5, 6, 7), (1, 5, 6, 9)]).2 (by decide)⟩

/-- C4: `ensure_rows_exist` appends, for each date of the range lacking
a row, a fresh row with the given `total_rooms` and `booked_count = 0`,
leaving every pre-existing row literally in place; a second identical
call changes nothing. -/
theorem ensure_rows_exist_idempotent (db : List RoomDateInventory)
    (rt s e : Nat) (total : Int) :
    (∃ created,
      ensure_rows_exist db rt s e total = db ++ created ∧
      (∀ r ∈ created, r.room_type_id = rt ∧ s ≤ r.date ∧ r.date < e ∧
        r.total_rooms = total ∧ r.booked_count = 0 ∧
        hasRow db rt r.date = false) ∧
      (∀ d, s ≤ d → d < e → hasRow db rt d = false →
        ∃ r ∈ created, r.date = d)) ∧
    ensure_rows_exist (ensure_rows_exist db rt s e total) rt s e total =
      ensure_rows_exist db rt s e total := by
  constructor
  · by_cases hse : s ≥ e
    · refine ⟨[], ?_, ?_, ?_⟩
      · rw [ensure_rows_exist, if_pos hse, List.append_nil]
      · intro r hr; cases hr
      · intro d h1 h2; omega
    · refine ⟨newRows db rt total s e, ?_, ?_, ?_⟩
      · rw [ensure_rows_exist, if_neg hse]
      · exact newRows_sound db rt total s e
      · exact fun d h1 h2 h3 => newRows_covers db rt total s e d h1 h2 h3
  · exact ensure_idem db rt s e total

/-- Witness for C4 on a table already holding one of the two dates. -/
theorem ensure_rows_exist_idempotent_witness :
    (∃ created,
      ensure_rows_exist [⟨1, 5, 8, 2⟩] 1 5 7 10 =
        [⟨1, 5, 8, 2⟩] ++ created ∧
      (∀ r ∈ created, r.room_type_id = 1 ∧ 5 ≤ r.date ∧ r.date < 7 ∧
        r.total_rooms = 10 ∧ r.booked_count = 0 ∧
        hasRow [⟨1, 5, 8, 2⟩] 1 r.date = false) ∧
      (∀ d, 5 ≤ d → d < 7 → hasRow [⟨1, 5, 8, 2⟩] 1 d = false →
        ∃ r ∈ created, r.date = d)) ∧
    ensure_rows_exist (ensure_rows_exist [⟨1, 5, 8, 2⟩] 1 5 7 10)
        1 5 7 10 =
      ensure_rows_exist [⟨1, 5, 8, 2⟩] 1 5 7 10 :=
  ensure_rows_exist_idempotent [⟨1, 5, 8, 2⟩] 1 5 7 10

/-- C5: all four range operations treat `end_date` as excluded — a row
dated `end_date` is never created, returned, counted, or mutated — and
an empty or inverted range is a no-op / vacuous success for every one
of them. -/
theorem half_open_range_consistency (db : List RoomDateInventory)
    (rt s e : Nat) (total count num : Int) (r0 : RoomDateInventory) :
    (e ≤ s →
      ensure_rows_exist db rt s e total = db ∧
      get_for_date_range_with_lock db rt s e = [] ∧
      check_availability db rt s e num = (true, 0) ∧
      decrement_booked db rt s e count = db) ∧
    (r0.date = e →
      ensure_rows_exist (r0 :: db) rt s e total =
        r0 :: ensure_rows_exist db rt s e total ∧
      get_for_date_range_with_lock (r0 :: db) rt s e =
        get_for_date_range_with_lock db rt s e ∧
      check_availability (r0 :: db) rt s e num =
        check_availability db rt s e num ∧
      decrement_booked (r0 :: db) rt s e count =
        r0 :: decrement_booked db rt s e count) ∧
    (∀ r' ∈ get_for_date_range_with_lock db rt s e, r'.date < e) ∧
    (∀ r' ∈ ensure_rows_exist db rt s e total,
      r' ∈ db ∨ r'.date < e) := by
  refine ⟨?_, ?_, ?_, ?_⟩
  · intro h
    refine ⟨?_, ?_, ?_, ?_⟩
    · rw [ensure_rows_exist, if_pos (by omega)]
    · rw [get_for_date_range_with_lock, if_pos (by omega)]
    · rw [check_availability, if_pos (by omega)]
    · rw [decrement_booked, if_pos (by omega)]
  · intro hr0
    have hir : inRange rt s e r0 = false :=
      inRange_eq_false_of_date_eq_end hr0
    refine ⟨?_, ?_, ?_, ?_⟩
    · by_cases hse : s ≥ e
      · rw [ensure_rows_exist, if_pos hse, ensure_rows_exist,
          if_pos hse]
      · rw [ensure_rows_exist, if_neg hse, ensure_rows_exist,
          if_neg hse, List.cons_append]
        rw [newRows_congr (r0 :: db) db rt total s e (fun d hd1 hd2 => by
          rw [hasRow_cons]
          have hne : (r0.date == d) = false := by
            simp only [beq_eq_false_iff_ne, ne_eq]
            omega
          rw [hne, Bool.and_false, Bool.false_or])]
    · by_cases hse : s ≥ e
      · rw [get_for_date_range_with_lock, if_pos hse,
          get_for_date_range_with_lock, if_pos hse]
      · rw [get_for_date_range_with_lock, if_neg hse,
          get_for_date_range_with_lock, if_neg hse,
          selectRange_cons_out hir]
    · exact check_availability_congr num (selectRange_cons_out hir)
    · rw [decrement_booked_eq_map, decrement_booked_eq_map,
        List.map_cons, hir]
      simp
  · intro r' hr'
    rw [get_for_date_range_with_lock] at hr'
    by_cases hse : s ≥ e
    · rw [if_pos hse] at hr'; cases hr'
    · rw [if_neg hse] at hr'
      have := (sortByDate_perm _).mem_iff.mp hr'
      exact (inRange_iff.mp (selectRange_mem.mp this).2).2.2
  · intro r' hr'
    rw [ensure_rows_exist] at hr'
    by_cases hse : s ≥ e
    · rw [if_pos hse] at hr'; exact Or.inl hr'
    · rw [if_neg hse] at hr'
      rcases List.mem_append.mp hr' with h | h
      · exact Or.inl h
      · exact Or.inr (newRows_sound db rt total s e r' h).2.2.1

/-- Witness for C5 at `s = 3 > e = 2` and an out-of-range row dated
`e`. -/
theorem half_open_range_consistency_witness :
    (ensure_rows_exist [⟨1, 9, 10, 0⟩] 1 3 2 5 = [⟨1, 9, 10, 0⟩] ∧
      get_for_date_range_with_lock [⟨1, 9, 10, 0⟩] 1 3 2 = [] ∧
      check_availability [⟨1, 9, 10, 0⟩] 1 3 2 4 = (true, 0) ∧
      decrement_booked [⟨1, 9, 10, 0⟩] 1 3 2 4 = [⟨1, 9, 10, 0⟩]) ∧
    (ensure_rows_exist (⟨1, 2, 7, 0⟩ :: [⟨1, 9, 10, 0⟩]) 1 3 2 5 =
      ⟨1, 2, 7, 0⟩ :: ensure_rows_exist [⟨1, 9, 10, 0⟩] 1 3 2 5 ∧
      get_for_date_range_with_lock (⟨1, 2, 7, 0⟩ :: [⟨1, 9, 10, 0⟩])
          1 3 2 =
        get_for_date_range_with_lock [⟨1, 9, 10, 0⟩] 1 3 2 ∧
      check_availability (⟨1, 2, 7, 0⟩ :: [⟨1, 9, 10, 0⟩]) 1 3 2 4 =
        check_availability [⟨1, 9, 10, 0⟩] 1 3 2 4 ∧
      decrement_booked (⟨1, 2, 7, 0⟩ :: [⟨1, 9, 10, 0⟩]) 1 3 2 4 =
        ⟨1, 2, 7, 0⟩ :: decrement_booked [⟨1, 9, 10, 0⟩] 1 3 2 4) :=
  ⟨(half_open_range_consistency [⟨1, 9, 10, 0⟩] 1 3 2 5 4 4
      ⟨1, 2, 7, 0⟩).1 (by omega),
    (half_open_range_consistency [⟨1, 9, 10, 0⟩] 1 3 2 5 4 4
      ⟨1, 2, 7, 0⟩).2.1 rfl⟩

/-- C6: `check_availability` distinguishes the two zero cases — an
empty or inverted range yields `(true, 0)`, while a non-empty range
with no inventory rows for the room type yields `(false, 0)`. -/
theorem check_availability_zero_distinction (db : List RoomDateInventory)
    (rt s e : Nat) (num : Int) :
    (e ≤ s → check_availability db rt s e num = (true, 0)) ∧
    (s < e → selectRange db rt s e = [] →
      check_availability db rt s e num = (false, 0)) := by
  constructor
  · intro h
    rw [check_availability, if_pos (by omega)]
  · intro h1 h2
    simp only [check_availability]
    rw [if_neg (by omega), h2]
    rfl

/-- Witness for C6: the same table answers `(true, 0)` on an empty
range and `(false, 0)` on a non-empty unprovisioned range. -/
theorem check_availability_zero_distinction_witness :
    check_availability [⟨1, 9, 10, 0⟩] 1 5 5 1 = (true, 0) ∧
    check_availability [⟨1, 9, 10, 0⟩] 1 5 7 1 = (false, 0) :=
  ⟨(check_availability_zero_distinction [⟨1, 9, 10, 0⟩] 1 5 5 1).1
      (by omega),
    (check_availability_zero_distinction [⟨1, 9, 10, 0⟩] 1 5 7 1).2
      (by omega) (by decide)⟩

/-- C7: `get_for_date_range_with_lock` returns exactly the rows of the
room type with date in `[start_date, end_date)` — as a permutation of
the range query, with membership characterized — sorted by date
ascending, and the empty list on an empty or inverted range. -/
theorem get_for_date_range_lock_ordered (db : List RoomDateInventory)
    (rt s e : Nat) :
    (e ≤ s → get_for_date_range_with_lock db rt s e = []) ∧
    (s < e →
      (get_for_date_range_with_lock db rt s e).Perm
        (selectRange db rt s e) ∧
      ∀ r, r ∈ get_for_date_range_with_lock db rt s e ↔
        (r ∈ db ∧ inRange rt s e r = true)) ∧
    (get_for_date_range_with_lock db rt s e).Pairwise
      (fun a b => a.date ≤ b.date) := by
  refine ⟨?_, ?_, ?_⟩
  · intro h
    rw [get_for_date_range_with_lock, if_pos (by omega)]
  · intro h
    rw [get_for_date_range_with_lock, if_neg (by omega)]
    refine ⟨sortByDate_perm _, fun r => ?_⟩
    rw [(sortByDate_perm _).mem_iff]
    exact selectRange_mem
  · rw [get_for_date_range_with_lock]
    by_cases hse : s ≥ e
    · rw [if_pos hse]
      exact List.Pairwise.nil
    · rw [if_neg hse]
      exact sortByDate_sorted _

/-- Witness for C7 on a three-row table with an out-of-order range. -/
theorem get_for_date_range_lock_ordered_witness :
    get_for_date_range_with_lock
        [⟨1, 6, 10, 0⟩, ⟨1, 5, 10, 1⟩, ⟨2, 5, 8, 0⟩] 1 7 5 = [] ∧
    ((get_for_date_range_with_lock
        [⟨1, 6, 10, 0⟩, ⟨1, 5, 10, 1⟩, ⟨2, 5, 8, 0⟩] 1 5 7).Perm
      (selectRange [⟨1, 6, 10, 0⟩, ⟨1, 5, 10, 1⟩, ⟨2, 5, 8, 0⟩] 1 5 7) ∧
      ∀ r, r ∈ get_for_date_range_with_lock
          [⟨1, 6, 10, 0⟩, ⟨1, 5, 10, 1⟩, ⟨2, 5, 8, 0⟩] 1 5 7 ↔
        (r ∈ [⟨1, 6, 10, 0⟩, ⟨1, 5, 10, 1⟩, ⟨2, 5, 8, 0⟩] ∧
          inRange 1 5 7 r = true)) :=
  ⟨(get_for_date_range_lock_ordered
      [⟨1, 6, 10, 0⟩, ⟨1, 5, 10, 1⟩, ⟨2, 5, 8, 0⟩] 1 7 5).1 (by omega),
    (get_for_date_range_lock_ordered
      [⟨1, 6, 10, 0⟩, ⟨1, 5, 10, 1⟩, ⟨2, 5, 8, 0⟩] 1 5 7).2.1
      (by omega)⟩

/-- C8: the two-night spec scenario on room type 1 (`739676`/`739678`
are the day ordinals of 2026-03-01 and 2026-03-03, exclusive end):
materializing `total_rooms = 10`, booking 7 via the locked rows, the
failed 4-room check `(false, 3)` leaving the ledger at 7, the
cancellation returning both nights to 0, and a subsequent 10-room
availability success; the aborted second booking leaves the workflow
state unchanged. -/
theorem ledger_two_night_scenario :
    ensure_rows_exist [] 1 739676 739678 10 =
      [⟨1, 739676, 10, 0⟩, ⟨1, 739677, 10, 0⟩] ∧
    increment_booked
        (get_for_date_range_with_lock
          [⟨1, 739676, 10, 0⟩, ⟨1, 739677, 10, 0⟩] 1 739676 739678) 7 =
      [⟨1, 739676, 10, 7⟩, ⟨1, 739677, 10, 7⟩] ∧
    check_availability [⟨1, 739676, 10, 7⟩, ⟨1, 739677, 10, 7⟩]
        1 739676 739678 4 = (false, 3) ∧
    run initState [Event.create 1 739676 739678 7 10,
        Event.create 1 739676 739678 4 10] =
      ⟨[⟨1, 739676, 10, 7⟩, ⟨1, 739677, 10, 7⟩],
        [⟨1, 739676, 739678, 7, false⟩]⟩ ∧
    decrement_booked [⟨1, 739676, 10, 7⟩, ⟨1, 739677, 10, 7⟩]
        1 739676 739678 7 =
      [⟨1, 739676, 10, 0⟩, ⟨1, 739677, 10, 0⟩] ∧
    check_availability [⟨1, 739676, 10, 0⟩, ⟨1, 739677, 10, 0⟩]
        1 739676 739678 10 = (true, 10) := by
  decide

/-- C9: `increment_booked` adds `count` to every given row's
`booked_count` with no upper bound: on a row with `total_rooms = 2`,
incrementing by 5 leaves `booked_count = 5 > total_rooms`, and the
subsequent availability check reports the negative difference `-3`
as-is. -/
theorem increment_booked_unbounded :
    (∀ (rows : List RoomDateInventory) (count : Int),
      (increment_booked rows count).map (fun r => r.booked_count) =
        rows.map (fun r => r.booked_count + count)) ∧
    increment_booked [⟨1, 100, 2, 0⟩] 5 = [⟨1, 100, 2, 5⟩] ∧
    (increment_booked [⟨1, 100, 2, 0⟩] 5).all
      (fun r => decide (r.total_rooms < r.booked_count)) = true ∧
    check_availability [⟨1, 100, 2, 5⟩] 1 100 101 1 = (false, -3) := by
  refine ⟨?_, by decide, by decide, by decide⟩
  intro rows count
  simp [increment_booked, List.map_map]

/-- C10: a `Booking` constructed without an explicit `status` carries
the field default `PENDING` — the initial state of the booking state
machine. -/
theorem booking_default_status_pending (slug : String)
    (guest_id room_type_id location_id hotel_id check_in check_out :
      Nat) (num_rooms num_guests : Int)
    (night_count price_per_night total_price : Int)
    (created_at updated_at : Nat) :
    ({ slug := slug, guest_id := guest_id,
        room_type_id := room_type_id, location_id := location_id,
        hotel_id := hotel_id, check_in := check_in,
        check_out := check_out, num_rooms := num_rooms,
        num_guests := num_guests, night_count := night_count,
        price_per_night := price_per_night, total_price := total_price,
        created_at := created_at, updated_at := updated_at } :
      Booking).status = BookingStatus.pending := rfl

end NestStay
